import Mathlib

/-
Verification of the dependency lock-maintenance tool in
`scripts/pyxmatlab_tools/sync.py`.

The source program orchestrates an external resolver CLI (`bin/uv`), a
version-control CLI (`git rev-parse`) and a JSON store file.  The embedding
represents every external collaborator as a field of an `Env` record (its
observable output for each query), and threads an explicit `St` state holding
the two store files, the list of resolver invocations performed so far, and a
counter of `lock` invocations.  Pure text processing (the `re` patterns, the
`str.strip` / `str.splitlines` / `"\n".join` calls and substring tests) is
embedded directly over `List Char`, following Python `re` multiline semantics:
`^`/`$` anchor at `\x7b`-free positions delimited by newline characters, and
`\s` may match the newline itself, which produces the cross-line match cases
modelled below.
-/

namespace PyxSync

/-- Decidable equality of `Except` results, used to evaluate the model at
concrete inputs. -/
instance {ε α : Type} [DecidableEq ε] [DecidableEq α] :
    DecidableEq (Except ε α) := fun x y =>
  match x, y with
  | .ok a, .ok b =>
    match decEq a b with
    | isTrue h => isTrue (h ▸ rfl)
    | isFalse h => isFalse (fun hh => h (Except.ok.inj hh))
  | .error a, .error b =>
    match decEq a b with
    | isTrue h => isTrue (h ▸ rfl)
    | isFalse h => isFalse (fun hh => h (Except.error.inj hh))
  | .ok _, .error _ => isFalse (fun hh => Except.noConfusion hh)
  | .error _, .ok _ => isFalse (fun hh => Except.noConfusion hh)

/- ## Character-list utilities (Python string primitives) -/

/-- Consume `p` as a literal prefix of `l`, returning the remainder. -/
def stripPref : List Char → List Char → Option (List Char)
  | [], l => some l
  | _ :: _, [] => none
  | p :: ps, c :: cs => if p = c then stripPref ps cs else none

/-- Split on every occurrence of `sep`, like Python `str.split(sep)`:
runs of separators yield empty segments and the result is never empty. -/
def splitOnChar (sep : Char) : List Char → List (List Char)
  | [] => [[]]
  | c :: cs =>
    if c = sep then [] :: splitOnChar sep cs
    else
      match splitOnChar sep cs with
      | l :: ls => (c :: l) :: ls
      | [] => [[c]]

/-- The line segmentation used by `re` in multiline mode: segments between
newline characters. -/
def splitNl (cs : List Char) : List (List Char) := splitOnChar '\n' cs

/-- Python `str.strip()`: drop whitespace from both ends. -/
def pyStrip (cs : List Char) : List Char :=
  ((cs.dropWhile Char.isWhitespace).reverse.dropWhile Char.isWhitespace).reverse

/-- Python `str.splitlines()`: like `splitNl` but without the empty segment
produced by a trailing newline (and `[]` for the empty string). -/
def pyLines (cs : List Char) : List (List Char) :=
  let ps := splitNl cs
  if ps.getLast? = some [] then ps.dropLast else ps

/-- Boolean list-prefix test. -/
def startsWithL : List Char → List Char → Bool
  | [], _ => true
  | _ :: _, [] => false
  | a :: as, b :: bs => a = b && startsWithL as bs

/-- Python substring containment `needle in hay`. -/
def isInfixL (n : List Char) : List Char → Bool
  | [] => n.isEmpty
  | c :: cs => startsWithL n (c :: cs) || isInfixL n cs

/-- Association-list lookup (Python `dict.get`). -/
def lookupA (k : String) : List (String × String) → Option String
  | [] => none
  | (k', v) :: rest => if k' = k then some v else lookupA k rest

/-- Association-list insertion with Python `dict` semantics: an existing key
keeps its position and receives the new value, a new key is appended. -/
def upsert (acc : List (String × String)) (k v : String) : List (String × String) :=
  match acc with
  | [] => [(k, v)]
  | (k', v') :: rest => if k' = k then (k, v) :: rest else (k', v') :: upsert rest k v

/- ## The three `re` patterns of the source, embedded per line segment.

`UV_PAT = (?m)^# uv\s(?P<version>.+)$`
`SUB_PAT = (?m)^# submodules/(?P<name>[^\s]+)\s(?P<rev>[^\s]+)$`
`DEP_PAT = (?mi)^(?P<name>[A-Z0-9]|[A-Z0-9][A-Z0-9._-]*[A-Z0-9])==.+$`
-/

/-- Match of `UV_PAT` inside a single line: `# uv`, one whitespace character,
then a nonempty rest of line (the `version` group). -/
def uvIntra (l : List Char) : Option (List Char) :=
  match stripPref "# uv".data l with
  | some (w :: rest) => if w.isWhitespace && !rest.isEmpty then some rest else none
  | _ => none

/-- Search for the first `UV_PAT` match (`re.search`).  Besides the intra-line
case, `\s` may match the newline itself: a line that is exactly `# uv`
followed by a nonempty line matches, with the whole next line as version. -/
def uvSearchL : List (List Char) → Option (List Char)
  | [] => none
  | l :: rest =>
    match uvIntra l with
    | some v => some v
    | none =>
      if l = "# uv".data then
        match rest with
        | r :: _ => if r ≠ [] then some r else uvSearchL rest
        | [] => none
      else uvSearchL rest

/-- Match of `SUB_PAT` inside a single line: literal `# submodules/`, a
nonempty whitespace-free name, one whitespace character (always true of the
character right after the `takeWhile`, checked anyway for fidelity), and a
nonempty whitespace-free rev reaching the end of the line. -/
def subIntra (l : List Char) : Option (List Char × List Char) :=
  match stripPref "# submodules/".data l with
  | none => none
  | some t =>
    let nm := t.takeWhile (fun c => !c.isWhitespace)
    match t.drop nm.length with
    | [] => none
    | w :: rev =>
      if w.isWhitespace && !nm.isEmpty && !rev.isEmpty &&
          rev.all (fun c => !c.isWhitespace) then
        some (nm, rev)
      else none

/-- Cross-line match of `SUB_PAT`, where `\s` matches the newline: a line that
is exactly `# submodules/` plus a whitespace-free nonempty name, followed by a
whitespace-free nonempty line (the rev). -/
def subCrossPair (l r : List Char) : Option (List Char × List Char) :=
  match stripPref "# submodules/".data l with
  | some nm =>
    if !nm.isEmpty && nm.all (fun c => !c.isWhitespace) &&
        !r.isEmpty && r.all (fun c => !c.isWhitespace) then
      some (nm, r)
    else none
  | none => none

/-- `re.finditer(SUB_PAT, ·)`: scan the line segments in order collecting
non-overlapping matches; a cross-line match consumes both segments. -/
def subFind : List (List Char) → List (List Char × List Char)
  | [] => []
  | l :: rest =>
    match subIntra l with
    | some m => m :: subFind rest
    | none =>
      match rest with
      | [] => []
      | r :: rs =>
        match subCrossPair l r with
        | some m => m :: subFind rs
        | none => subFind (r :: rs)

/-- Characters allowed inside a `DEP_PAT` name (with `re.IGNORECASE`). -/
def nameChar (c : Char) : Bool := c.isAlphanum || c = '.' || c = '_' || c = '-'

/-- Match of `DEP_PAT` on a line: the name is the maximal prefix of
name-characters, which must begin and end with an alphanumeric character and
be followed by `==` and a nonempty rest of line. -/
def depName (l : List Char) : Option (List Char) :=
  let r := l.takeWhile nameChar
  match r with
  | [] => none
  | c :: _ =>
    if c.isAlphanum && (r.getLastD c).isAlphanum then
      match l.drop r.length with
      | '=' :: '=' :: (_ :: _) => some r
      | _ => none
    else none

/-- `re.finditer(DEP_PAT, ·)` over line segments (the pattern cannot span
lines). -/
def depFind (segs : List (List Char)) : List (List Char) := segs.filterMap depName

/-- Consume the reported dependency name at the start of a line, as the
interpolated pattern `^(?P<name>NAME)==(?P<ver>.+$)` does: literal characters
compare case-insensitively, while a dot in the name — a regex metacharacter
left unescaped by the source — matches any character. -/
def matchName : List Char → List Char → Option (List Char)
  | [], rest => some rest
  | _ :: _, [] => none
  | c :: cs, d :: ds =>
    if c = '.' ∨ c.toLower = d.toLower then matchName cs ds else none

/-- Whether a stored line matches the interpolated search pattern for one
reported dependency name: the name (dots wild), then `==`, then a nonempty
version reaching the end of the line, so a match is always the whole line. -/
def lineMatchesName (name l : List Char) : Bool :=
  match matchName name l with
  | some ('=' :: '=' :: (_ :: _)) => true
  | _ => false

/-- The direct-dependency collection loop of `check_compilation`: for every
reported name, the first matching line of the old fragment; `none` as soon as
some name has no match (the source returns `lock(high)` at that point). -/
def collectDirects (oldSegs : List (List Char)) : List (List Char) →
    Option (List (List Char))
  | [] => some []
  | n :: ns =>
    match oldSegs.find? (fun l => lineMatchesName n l) with
    | some m => (collectDirects oldSegs ns).map (fun ms => m :: ms)
    | none => none

/-- Modelled from the spec: a stored line carrying the same package name
(compared case-insensitively, every character literal) followed by `==` and a
nonempty version.  This is the comparison the spec describes in words; the
source instead interpolates the name into a regex, where a dot is a
wildcard — see `lineMatchesName`. -/
def specNameLine (name l : List Char) : Bool :=
  decide ((l.take name.length).map Char.toLower = name.map Char.toLower) &&
    (match l.drop name.length with
     | '=' :: '=' :: (_ :: _) => true
     | _ => false)

/-- A line that is a submodule-pin line, i.e. an intra-line `SUB_PAT`
match. -/
def isSubLine (l : List Char) : Bool := (subIntra l).isSome

/-- A line that is a dependency line, i.e. a `DEP_PAT` match. -/
def isDepLine (l : List Char) : Bool := (depName l).isSome

/- ## Data model: environment and state -/

/-- One store file (`lock.json` / `lock-high.json`).  `corrupt` stands for a
file whose contents `json.loads` rejects; the JSON parser itself is external
library code, so its verdict is part of the state. -/
inductive StoreFile where
  | missing
  | corrupt
  | parsed (entries : List (String × String))
deriving DecidableEq

/-- One invocation of the resolver CLI (`bin/uv pip compile`), identified by
the arguments that select a resolution. -/
structure ResolverCall where
  platform : String
  pythonVersion : String
  high : Bool
  noDeps : Bool
deriving DecidableEq

/-- Mutable world state threaded through the operations. -/
structure St where
  storeNormal : StoreFile
  storeHigh : StoreFile
  resolverCalls : List ResolverCall
  lockCalls : Nat
deriving DecidableEq

/-- External collaborators and configuration, all read-only during a run.
`resolveDeps` is the stdout of the resolver for given arguments (or the
captured stderr on non-zero exit); `uvRun` the output of `bin/uv --version`;
`devSubmods` the list of `submodules/...` matches of the regex scan over the
`requirements/dev.in` file (file reading and the scan are I/O, so the result
is an environment input); `gitRev` the output of `git rev-parse HEAD:<path>`;
`nodepsFile` the text of `requirements/nodeps.in`. -/
structure Env where
  sysPlatform : String
  sysPythonVersion : String
  platforms : List String
  pythonVersions : List String
  resolveDeps : String → String → Bool → Bool → Except String String
  uvRun : Except String String
  devSubmods : List String
  gitRev : String → Except String String
  nodepsFile : String

/-- Store file selected by the `high` flag (source `get_lockfile`). -/
def storeOf (st : St) (high : Bool) : StoreFile :=
  if high then st.storeHigh else st.storeNormal

/-- Overwrite the store file selected by `high`. -/
def setStore (st : St) (high : Bool) (sf : StoreFile) : St :=
  if high then { st with storeHigh := sf } else { st with storeNormal := sf }

/-- Record one resolver invocation. -/
def addCall (st : St) (c : ResolverCall) : St :=
  { st with resolverCalls := st.resolverCalls ++ [c] }

/-- Error message standing for the `json.JSONDecodeError` raised by
`json.loads` on an unparseable store file. -/
def jsonDecodeError : String := "JSONDecodeError: store file is not valid JSON"

/- ## Operations of the source module -/

/-- Source `get_uv_version`: on success, strip the stdout and take the second
token of a split on single spaces; a missing second token is an uncaught
`IndexError`, a non-zero exit propagates the captured stderr. -/
def get_uv_version (env : Env) : Except String String :=
  match env.uvRun with
  | .error e => .error e
  | .ok out =>
    match (splitOnChar ' ' (pyStrip out.data))[1]? with
    | some t => .ok (⟨t⟩ : String)
    | none => .error "IndexError: uv version output had no second token"

/-- The submodule-pin line `# {sub} {rev}` of a compiled fragment. -/
def pinLineC (pr : String × String) : List Char :=
  '#' :: ' ' :: (pr.1.data ++ ' ' :: pr.2.data)

/-- The lines joined by `compile`: version header, one pin line per
submodule, the stripped resolver output lines, the stripped no-compile
lines. -/
def fragmentLines (uvv : String) (pins : List (String × String))
    (deps nodeps : String) : List (List Char) :=
  ("# uv ".data ++ uvv.data) ::
    (pins.map pinLineC ++
      ((pyLines deps.data).map pyStrip ++ (pyLines nodeps.data).map pyStrip))

/-- Python `"\n".join`. -/
def joinNlC : List (List Char) → List Char
  | [] => []
  | [l] => l
  | l :: ls => l ++ '\n' :: joinNlC ls

/-- The fragment text assembled by `compile`: joined lines plus one final
newline. -/
def mkFragment (uvv : String) (pins : List (String × String))
    (deps nodeps : String) : String :=
  ⟨joinNlC (fragmentLines uvv pins deps nodeps) ++ ['\n']⟩

/-- The submodule-pin dictionary of `compile`: one `git rev-parse` per regex
match (stdout stripped), collected with `dict` semantics (duplicate names
keep first position, last value). A failing lookup propagates
(`check=True`). -/
def submodulePinsF (env : Env) : Except String (List (String × String)) :=
  match env.devSubmods.mapM
      (fun s => (env.gitRev s).map (fun r => (s, (⟨pyStrip r.data⟩ : String)))) with
  | .error e => .error e
  | .ok prs => .ok (prs.foldl (fun acc pr => upsert acc pr.1 pr.2) [])

/-- Result of source `compile` for given arguments: resolver output first
(non-zero exit propagates the stderr), then the submodule lookups, then the
version probe inside the assembled f-string. -/
def compileF (env : Env) (platform python_version : String)
    (high no_deps : Bool) : Except String String :=
  match env.resolveDeps platform python_version high no_deps with
  | .error e => .error e
  | .ok deps =>
    match submodulePinsF env with
    | .error e => .error e
    | .ok pins =>
      match get_uv_version env with
      | .error e => .error e
      | .ok uvv => .ok (mkFragment uvv pins deps env.nodepsFile)

/-- Stateful `compile`: the resolver subprocess runs (and is recorded) before
any failure is observed. -/
def compile (env : Env) (st : St) (platform python_version : String)
    (high no_deps : Bool) : Except String String × St :=
  (compileF env platform python_version high no_deps,
    addCall st ⟨platform, python_version, high, no_deps⟩)

/-- Source `get_compilation_key`. -/
def get_compilation_key (platform python_version : String) (high : Bool) : String :=
  platform ++ "_" ++ python_version ++ (if high then "_high" else "")

/-- Source `get_compilation`: empty string for a missing file or key; an
unparseable existing file raises. -/
def get_compilation (st : St) (platform python_version : String)
    (high : Bool) : Except String String :=
  match storeOf st high with
  | .missing => .ok ""
  | .corrupt => .error jsonDecodeError
  | .parsed contents =>
    .ok ((lookupA (get_compilation_key platform python_version high) contents).getD "")

/-- The supported platform × Python-version cross-product, in iteration
order. -/
def envPairs (env : Env) : List (String × String) :=
  env.platforms.flatMap (fun p => env.pythonVersions.map (fun v => (p, v)))

/-- The loop body of `lock`: compile every pair, building the contents dict
and latching `sys_compilation` at the first current-environment pair when it
was empty; the first failing compile aborts the loop. -/
def lockLoop (env : Env) (high : Bool) :
    List (String × String) → St → List (String × String) → String →
    (Except String (List (String × String) × String)) × St
  | [], st, acc, sc => (.ok (acc, sc), st)
  | (p, v) :: rest, st, acc, sc =>
    match compile env st p v high false with
    | (.error e, st1) => (.error e, st1)
    | (.ok c, st1) =>
      lockLoop env high rest st1 (upsert acc (get_compilation_key p v high) c)
        (if sc = "" ∧ p = env.sysPlatform ∧ v = env.sysPythonVersion then c else sc)

/-- Source `lock`: after all pairs compile, the whole mapping is written to
the mode's store file in a single write; on any failure nothing is written.
The JSON serialization (pretty-printed, key-sorted) is not observable through
the parsed-store abstraction and is left unmodelled. -/
def lock (env : Env) (st : St) (high : Bool) (sys_compilation : String) :
    Except String String × St :=
  let st0 : St := { st with lockCalls := st.lockCalls + 1 }
  match lockLoop env high (envPairs env) st0 [] sys_compilation with
  | (.error e, st1) => (.error e, st1)
  | (.ok (contents, sc), st1) => (.ok sc, setStore st1 high (.parsed contents))

/-- `re.search(UV_PAT, s)` returning the `version` group. -/
def uvSearch (s : String) : Option String :=
  (uvSearchL (splitNl s.data)).map (fun cs => (⟨cs⟩ : String))

/-- The submodule comparison of `check_compilation`: pair old and fresh
`SUB_PAT` matches positionally with a non-strict zip and test whether some
pair of `(name, rev)` groups differs.  The source wraps the zip in
`try/except ValueError`, but with `strict=False` the zip never raises, so the
handler is dead code and has no counterpart here. -/
def subMismatch (old directs : String) : Bool :=
  ((subFind (splitNl old.data)).zip (subFind (splitNl directs.data))).any
    (fun pr => decide (pr.1 ≠ pr.2))

/-- Source `check_compilation`: the linear chain of guards, each
short-circuiting to `lock`. -/
def check_compilation (env : Env) (st : St) (high : Bool) :
    Except String String × St :=
  match get_compilation st env.sysPlatform env.sysPythonVersion high with
  | .error e => (.error e, st)
  | .ok old =>
    if old = "" then lock env st high "" else
    match uvSearch old with
    | none => lock env st high ""
    | some oldUv =>
      match get_uv_version env with
      | .error e => (.error e, st)
      | .ok uvv =>
        if oldUv ≠ uvv then lock env st high "" else
        match compile env st env.sysPlatform env.sysPythonVersion high true with
        | (.error e, st1) => (.error e, st1)
        | (.ok directs, st1) =>
          if subMismatch old directs then lock env st1 high "" else
          match collectDirects (splitNl old.data) (depFind (splitNl directs.data)) with
          | none => lock env st1 high ""
          | some oldDirects =>
            match compile env st1 env.sysPlatform env.sysPythonVersion high false with
            | (.error e, st2) => (.error e, st2)
            | (.ok sysComp, st2) =>
              if oldDirects.any (fun d => !isInfixL d sysComp.data) then
                lock env st2 high sysComp
              else (.ok old, st2)

/- ## Concrete environments used to instantiate the theorems -/

/-- State with no store files, empty history. -/
def stEmpty : St := ⟨.missing, .missing, [], 0⟩

/-- A benign single-platform environment whose resolver always reports
`foo==1.0`. -/
def envGood : Env :=
  { sysPlatform := "linux", sysPythonVersion := "3.11",
    platforms := ["linux"], pythonVersions := ["3.11"],
    resolveDeps := fun _ _ _ _ => .ok "foo==1.0",
    uvRun := .ok "uv 1.0",
    devSubmods := [], gitRev := fun _ => .ok "", nodepsFile := "" }

/-- The fragment `envGood` compiles for its current environment. -/
def fragGood : String := "# uv 1.0\nfoo==1.0\n"

/-- Store already holding `fragGood` under the current key. -/
def stGood : St := ⟨.parsed [("linux_3.11", fragGood)], .missing, [], 0⟩

/-- Environment whose full resolution reports a different version of `foo`
than its direct (no-deps) resolution. -/
def envBump : Env :=
  { envGood with
    resolveDeps := fun _ _ _ no_deps =>
      if no_deps then .ok "foo==1.0" else .ok "foo==2.0" }

/-- Environment whose direct resolution reports a package named `a.b` while
the stored fragment only holds a line for the differently named `axb`. -/
def envDotted : Env :=
  { envGood with
    resolveDeps := fun _ _ _ no_deps =>
      if no_deps then .ok "a.b==1.0" else .ok "axb==2.0" }

/-- Stored fragment for the `envDotted` scenario. -/
def oldDotted : String := "# uv 1.0\naxb==2.0\n"

/-- Store holding `oldDotted` under the current key. -/
def stDotted : St := ⟨.parsed [("linux_3.11", oldDotted)], .missing, [], 0⟩

/-- Environment with one submodule pinned at `aaa`. -/
def envSub : Env :=
  { envGood with devSubmods := ["submodules/s1"], gitRev := fun _ => .ok "aaa\n" }

/-- Stored fragment with one extra submodule pin beyond what `envSub`
currently reports. -/
def oldSub : String := "# uv 1.0\n# submodules/s1 aaa\n# submodules/s2 bbb\nfoo==1.0\n"

/-- Store holding `oldSub` under the current key. -/
def stSub : St := ⟨.parsed [("linux_3.11", oldSub)], .missing, [], 0⟩

/-- Stored fragment stamped with a resolver version older than the probe of
`envGood`. -/
def oldStale : String := "# uv 0.9\nfoo==1.0\n"

/-- Store holding `oldStale` under the current key. -/
def stStale : St := ⟨.parsed [("linux_3.11", oldStale)], .missing, [], 0⟩

/-- Environment whose resolver always exits non-zero with diagnostic
`boom`. -/
def envFail : Env := { envGood with resolveDeps := fun _ _ _ _ => .error "boom" }

/-- State whose normal-mode store file exists but is not parseable JSON. -/
def stCorrupt : St := ⟨.corrupt, .missing, [], 0⟩

/-- Environment whose current platform is not among the supported ones. -/
def envOff : Env := { envGood with sysPlatform := "sunos" }

/-- The no-deps (and full) fragment `envSub` compiles. -/
def dirSub : String := "# uv 1.0\n# submodules/s1 aaa\nfoo==1.0\n"

/-- The no-deps fragment `envDotted` compiles. -/
def dirDotted : String := "# uv 1.0\na.b==1.0\n"

/-- The full fragment `envDotted` compiles. -/
def fullDotted : String := "# uv 1.0\naxb==2.0\n"

/-- The full fragment `envBump` compiles. -/
def fullBump : String := "# uv 1.0\nfoo==2.0\n"

/- ## Lemmas about the text primitives -/

theorem splitOnChar_ne_nil (sep : Char) (cs : List Char) : splitOnChar sep cs ≠ [] := by
  induction cs with
  | nil => simp [splitOnChar]
  | cons c cs ih =>
    simp only [splitOnChar]
    split
    · simp
    · split <;> simp

theorem splitOnChar_append (sep : Char) (xs ys : List Char) (h : sep ∉ xs) :
    splitOnChar sep (xs ++ sep :: ys) = xs :: splitOnChar sep ys := by
  induction xs with
  | nil => simp [splitOnChar]
  | cons c cs ih =>
    have hc : ¬c = sep := fun he => h (he ▸ List.mem_cons_self c cs)
    have hcs : sep ∉ cs := fun hm => h (List.mem_cons_of_mem _ hm)
    rw [List.cons_append]
    simp only [splitOnChar, hc, if_false, ih hcs]

theorem splitOnChar_eq_self (sep : Char) (xs : List Char) (h : sep ∉ xs) :
    splitOnChar sep xs = [xs] := by
  induction xs with
  | nil => simp [splitOnChar]
  | cons c cs ih =>
    have hc : ¬c = sep := fun he => h (he ▸ List.mem_cons_self c cs)
    have hcs : sep ∉ cs := fun hm => h (List.mem_cons_of_mem _ hm)
    simp only [splitOnChar, hc, if_false, ih hcs]

theorem mem_splitOnChar_not_mem (sep : Char) (cs : List Char) :
    ∀ l ∈ splitOnChar sep cs, sep ∉ l := by
  induction cs with
  | nil =>
    intro l hl
    simp [splitOnChar] at hl
    simp [hl]
  | cons c cs ih =>
    intro l hl
    simp only [splitOnChar] at hl
    by_cases hc : c = sep
    · rw [if_pos hc] at hl
      rcases List.mem_cons.mp hl with h | h
      · simp [h]
      · exact ih l h
    · rw [if_neg hc] at hl
      rcases he : splitOnChar sep cs with _ | ⟨t, ts⟩
      · exact absurd he (splitOnChar_ne_nil sep cs)
      · rw [he] at hl
        rcases List.mem_cons.mp hl with h | h
        · subst h
          intro hm
          rcases List.mem_cons.mp hm with h | h
          · exact hc h.symm
          · exact ih t (he ▸ List.mem_cons_self t ts) h
        · exact ih l (he ▸ List.mem_cons_of_mem t h)

theorem joinNlC_cons_shape (hd : List Char) (T : List (List Char)) :
    ∃ ys, joinNlC (hd :: T) ++ ['\n'] = hd ++ '\n' :: ys := by
  cases T with
  | nil => exact ⟨[], rfl⟩
  | cons b bs => exact ⟨joinNlC (b :: bs) ++ ['\n'], by simp [joinNlC]⟩

theorem splitNl_joinNl : ∀ L : List (List Char), (∀ l ∈ L, '\n' ∉ l) → L ≠ [] →
    splitNl (joinNlC L ++ ['\n']) = L ++ [[]]
  | [], _, hne => absurd rfl hne
  | [hd], hL, _ => by
    show splitNl (hd ++ '\n' :: []) = [hd, []]
    rw [splitNl, splitOnChar_append _ _ _ (hL hd (List.mem_cons_self hd []))]
    simp [splitOnChar]
  | hd :: b :: bs, hL, _ => by
    have step : joinNlC (hd :: b :: bs) ++ ['\n'] =
        hd ++ '\n' :: (joinNlC (b :: bs) ++ ['\n']) := by simp [joinNlC]
    rw [step, splitNl, splitOnChar_append _ _ _ (hL hd (List.mem_cons_self hd _))]
    have ihh := splitNl_joinNl (b :: bs)
      (fun l hl => hL l (List.mem_cons_of_mem hd hl)) (List.cons_ne_nil b bs)
    rw [splitNl] at ihh
    rw [ihh]
    simp

theorem getLast?_append_right {α : Type} (l₁ l₂ : List α) (h : l₂ ≠ []) :
    (l₁ ++ l₂).getLast? = l₂.getLast? := by
  induction l₁ with
  | nil => simp
  | cons a as ih =>
    rw [List.cons_append, List.getLast?_cons, ih]
    obtain ⟨x, hx⟩ := Option.isSome_iff_exists.mp (List.getLast?_isSome.mpr h)
    rw [hx]
    rfl

theorem joinNlC_getLast (L : List (List Char)) (last : List Char)
    (h : L.getLast? = some last) (hne : last ≠ []) :
    (joinNlC L).getLast? = last.getLast? := by
  induction L with
  | nil => simp at h
  | cons hd rest ih =>
    cases rest with
    | nil =>
      simp only [List.getLast?_singleton, Option.some.injEq] at h
      subst h
      rfl
    | cons b bs =>
      have h' : (b :: bs).getLast? = some last := by
        rw [List.getLast?_cons_cons] at h
        exact h
      have ihh := ih h'
      have hjoin : joinNlC (b :: bs) ≠ [] := by
        intro hz
        rw [hz] at ihh
        have : last.getLast? = none := ihh.symm
        rcases last with _ | ⟨x, xs⟩
        · exact hne rfl
        · simp [List.getLast?_cons] at this
      have step : joinNlC (hd :: b :: bs) = hd ++ '\n' :: joinNlC (b :: bs) := by
        simp [joinNlC]
      rw [step, getLast?_append_right _ _ (by simp)]
      have : ('\n' :: joinNlC (b :: bs)) = ['\n'] ++ joinNlC (b :: bs) := rfl
      rw [this, getLast?_append_right _ _ hjoin, ihh]

theorem mkFragment_data (uvv : String) (pins : List (String × String))
    (deps nodeps : String) :
    (mkFragment uvv pins deps nodeps).data =
      joinNlC (fragmentLines uvv pins deps nodeps) ++ ['\n'] := rfl

theorem mkFragment_ne_empty (uvv : String) (pins : List (String × String))
    (deps nodeps : String) : mkFragment uvv pins deps nodeps ≠ "" := by
  intro h
  have hd : (mkFragment uvv pins deps nodeps).data = [] := by rw [h]
  rw [mkFragment_data] at hd
  simp at hd

theorem uvIntra_header (uvv : String) (h1 : uvv.data ≠ []) :
    uvIntra ('#' :: ' ' :: 'u' :: 'v' :: ' ' :: uvv.data) = some uvv.data := by
  have hws : (' ' : Char).isWhitespace = true := by decide
  have hne : uvv.data.isEmpty = false := by
    cases hx : uvv.data with
    | nil => exact absurd hx h1
    | cons c cs => rfl
  simp [uvIntra, stripPref, hws, hne]

theorem uvSearch_mkFragment (uvv : String) (pins : List (String × String))
    (deps nodeps : String) (h1 : uvv.data ≠ []) (h2 : '\n' ∉ uvv.data) :
    uvSearch (mkFragment uvv pins deps nodeps) = some uvv := by
  obtain ⟨ys, hys⟩ := joinNlC_cons_shape ("# uv ".data ++ uvv.data)
    (pins.map pinLineC ++
      ((pyLines deps.data).map pyStrip ++ (pyLines nodeps.data).map pyStrip))
  have hnonl : '\n' ∉ "# uv ".data ++ uvv.data := by
    intro hm
    rcases List.mem_append.mp hm with h | h
    · exact absurd h (by decide)
    · exact h2 h
  unfold uvSearch
  rw [mkFragment_data]
  unfold fragmentLines
  rw [hys, splitNl, splitOnChar_append _ _ _ hnonl]
  show ((uvSearchL (("# uv ".data ++ uvv.data) :: splitOnChar '\n' ys)).map
    (fun cs => (⟨cs⟩ : String))) = some uvv
  simp [uvSearchL, uvIntra_header uvv h1]

/- ## Lemmas about the store dictionary -/

theorem lookupA_upsert_self (acc : List (String × String)) (k v : String) :
    lookupA k (upsert acc k v) = some v := by
  induction acc with
  | nil => simp [upsert, lookupA]
  | cons e rest ih =>
    obtain ⟨k', v'⟩ := e
    by_cases h : k' = k
    · simp [upsert, h, lookupA]
    · simp [upsert, h, lookupA, ih]

theorem lookupA_upsert_other (acc : List (String × String)) (k v k' : String)
    (h : k' ≠ k) : lookupA k' (upsert acc k v) = lookupA k' acc := by
  induction acc with
  | nil => simp [upsert, lookupA, Ne.symm h]
  | cons e rest ih =>
    obtain ⟨k'', v''⟩ := e
    by_cases hk : k'' = k
    · subst hk
      simp [upsert, lookupA, Ne.symm h]
    · simp only [upsert, if_neg hk, lookupA]
      by_cases hk' : k'' = k'
      · simp [hk']
      · simp [hk', ih]

theorem mem_upsert (acc : List (String × String)) (k v : String) (e : String × String)
    (h : e ∈ upsert acc k v) : e = (k, v) ∨ e ∈ acc := by
  induction acc with
  | nil =>
    simp [upsert] at h
    exact Or.inl h
  | cons e' rest ih =>
    obtain ⟨k', v'⟩ := e'
    by_cases hk : k' = k
    · rw [upsert, if_pos hk] at h
      rcases List.mem_cons.mp h with h1 | h1
      · exact Or.inl h1
      · exact Or.inr (List.mem_cons_of_mem _ h1)
    · rw [upsert, if_neg hk] at h
      rcases List.mem_cons.mp h with h1 | h1
      · exact Or.inr (h1 ▸ List.mem_cons_self _ _)
      · rcases ih h1 with h2 | h2
        · exact Or.inl h2
        · exact Or.inr (List.mem_cons_of_mem _ h2)

theorem lookupA_upsert_isSome (acc : List (String × String)) (k v k' : String)
    (h : (lookupA k' acc).isSome = true) :
    (lookupA k' (upsert acc k v)).isSome = true := by
  by_cases hk : k' = k
  · subst hk
    rw [lookupA_upsert_self]
    rfl
  · rw [lookupA_upsert_other _ _ _ _ hk]
    exact h

/- ## Lemmas about compileF -/

theorem compileF_ok_shape (env : Env) (p v : String) (high nd : Bool) (c : String)
    (h : compileF env p v high nd = .ok c) :
    ∃ deps pins uvv, env.resolveDeps p v high nd = .ok deps ∧
      submodulePinsF env = .ok pins ∧ get_uv_version env = .ok uvv ∧
      c = mkFragment uvv pins deps env.nodepsFile := by
  unfold compileF at h
  cases hd : env.resolveDeps p v high nd with
  | error e => rw [hd] at h; cases h
  | ok deps =>
    rw [hd] at h
    cases hp : submodulePinsF env with
    | error e => rw [hp] at h; cases h
    | ok pins =>
      rw [hp] at h
      cases hu : get_uv_version env with
      | error e => rw [hu] at h; cases h
      | ok uvv =>
        rw [hu] at h
        cases h
        exact ⟨deps, pins, uvv, rfl, rfl, rfl, rfl⟩

theorem compileF_ok_ne_empty (env : Env) (p v : String) (high nd : Bool) (c : String)
    (h : compileF env p v high nd = .ok c) : c ≠ "" := by
  obtain ⟨deps, pins, uvv, _, _, _, hc⟩ := compileF_ok_shape env p v high nd c h
  rw [hc]
  exact mkFragment_ne_empty _ _ _ _

/- ## Lemmas about lockLoop and lock -/

theorem lockLoop_st_inv (env : Env) (high : Bool) :
    ∀ (l : List (String × String)) (st : St) (acc : List (String × String)) (sc : String),
      (lockLoop env high l st acc sc).2.storeNormal = st.storeNormal ∧
      (lockLoop env high l st acc sc).2.storeHigh = st.storeHigh ∧
      (lockLoop env high l st acc sc).2.lockCalls = st.lockCalls
  | [], st, acc, sc => ⟨rfl, rfl, rfl⟩
  | (p, v) :: rest, st, acc, sc => by
    simp only [lockLoop, compile]
    cases hc : compileF env p v high false with
    | error e => exact ⟨rfl, rfl, rfl⟩
    | ok c => exact lockLoop_st_inv env high rest _ _ _

theorem lockLoop_ok_spec (env : Env) (high : Bool) :
    ∀ (l : List (String × String)) (st : St) (acc acc' : List (String × String))
      (sc sc' : String) (st' : St),
      lockLoop env high l st acc sc = (.ok (acc', sc'), st') →
      st'.resolverCalls =
        st.resolverCalls ++ l.map (fun pr => ⟨pr.1, pr.2, high, false⟩) ∧
      (∀ pr ∈ l, ∃ c, compileF env pr.1 pr.2 high false = .ok c) ∧
      (∀ e ∈ acc', e ∈ acc ∨ ∃ pr ∈ l,
        compileF env pr.1 pr.2 high false = .ok e.2 ∧
        e.1 = get_compilation_key pr.1 pr.2 high) ∧
      (∀ k, (lookupA k acc).isSome = true → (lookupA k acc').isSome = true) ∧
      (∀ pr ∈ l, (lookupA (get_compilation_key pr.1 pr.2 high) acc').isSome = true) ∧
      (sc ≠ "" → sc' = sc)
  | [], st, acc, acc', sc, sc', st', h => by
    simp only [lockLoop] at h
    obtain ⟨h1, h2⟩ := Prod.mk.injEq .. ▸ h
    cases h1
    cases h2
    refine ⟨by simp, by simp, ?_, ?_, by simp, fun _ => rfl⟩
    · intro e he
      exact Or.inl he
    · intro k hk
      exact hk
  | (p, v) :: rest, st, acc, acc', sc, sc', st', h => by
    simp only [lockLoop, compile] at h
    cases hc : compileF env p v high false with
    | error e =>
      rw [hc] at h
      cases h
    | ok c =>
      rw [hc] at h
      obtain ⟨ih1, ih2, ih3, ih4, ih5, ih6⟩ :=
        lockLoop_ok_spec env high rest _ _ _ _ _ _ h
      refine ⟨?_, ?_, ?_, ?_, ?_, ?_⟩
      · rw [ih1]
        simp [addCall]
      · intro pr hpr
        rcases List.mem_cons.mp hpr with h1 | h1
        · exact ⟨c, h1 ▸ hc⟩
        · exact ih2 pr h1
      · intro e he
        rcases ih3 e he with h1 | h1
        · rcases mem_upsert _ _ _ _ h1 with h2 | h2
          · right
            refine ⟨(p, v), List.mem_cons_self _ _, ?_, ?_⟩
            · rw [h2]; exact hc
            · rw [h2]
          · exact Or.inl h2
        · obtain ⟨pr, hpr, hco, hk⟩ := h1
          exact Or.inr ⟨pr, List.mem_cons_of_mem _ hpr, hco, hk⟩
      · intro k hk
        exact ih4 k (lookupA_upsert_isSome _ _ _ _ hk)
      · intro pr hpr
        rcases List.mem_cons.mp hpr with h1 | h1
        · subst h1
          exact ih4 _ (by rw [lookupA_upsert_self]; rfl)
        · exact ih5 pr h1
      · intro hsc
        have hif : (if sc = "" ∧ p = env.sysPlatform ∧ v = env.sysPythonVersion
            then c else sc) = sc := by
          rw [if_neg]
          intro hand
          exact hsc hand.1
        rw [hif] at ih6
        exact ih6 hsc

theorem lockLoop_total (env : Env) (high : Bool) :
    ∀ (l : List (String × String)) (st : St) (acc : List (String × String)) (sc : String),
      (∀ pr ∈ l, ∃ c, compileF env pr.1 pr.2 high false = .ok c) →
      ∃ acc' sc' st', lockLoop env high l st acc sc = (.ok (acc', sc'), st')
  | [], st, acc, sc, _ => ⟨acc, sc, st, rfl⟩
  | (p, v) :: rest, st, acc, sc, hall => by
    obtain ⟨c, hc⟩ := hall (p, v) (List.mem_cons_self _ _)
    obtain ⟨acc', sc', st', hh⟩ := lockLoop_total env high rest
      (addCall st ⟨p, v, high, false⟩)
      (upsert acc (get_compilation_key p v high) c)
      (if sc = "" ∧ p = env.sysPlatform ∧ v = env.sysPythonVersion then c else sc)
      (fun pr hpr => hall pr (List.mem_cons_of_mem _ hpr))
    refine ⟨acc', sc', st', ?_⟩
    simp only [lockLoop, compile, hc]
    exact hh

theorem lockLoop_error_spec (env : Env) (high : Bool) :
    ∀ (l : List (String × String)) (st : St) (acc : List (String × String))
      (sc e : String) (st' : St),
      lockLoop env high l st acc sc = (.error e, st') →
      ∃ pr ∈ l, compileF env pr.1 pr.2 high false = .error e
  | [], st, acc, sc, e, st', h => by
    simp only [lockLoop] at h
    obtain ⟨h1, _⟩ := Prod.mk.injEq .. ▸ h
    cases h1
  | (p, v) :: rest, st, acc, sc, e, st', h => by
    simp only [lockLoop, compile] at h
    cases hc : compileF env p v high false with
    | error e2 =>
      rw [hc] at h
      obtain ⟨h1, _⟩ := Prod.mk.injEq .. ▸ h
      cases h1
      exact ⟨(p, v), List.mem_cons_self _ _, hc⟩
    | ok c =>
      rw [hc] at h
      obtain ⟨pr, hpr, hco⟩ := lockLoop_error_spec env high rest _ _ _ _ _ h
      exact ⟨pr, List.mem_cons_of_mem _ hpr, hco⟩

theorem lockLoop_sc_empty (env : Env) (high : Bool) :
    ∀ (l : List (String × String)) (st : St) (acc acc' : List (String × String))
      (sc' : String) (st' : St),
      lockLoop env high l st acc "" = (.ok (acc', sc'), st') →
      (∀ pr ∈ l, ¬(pr.1 = env.sysPlatform ∧ pr.2 = env.sysPythonVersion)) →
      sc' = ""
  | [], st, acc, acc', sc', st', h, _ => by
    simp only [lockLoop] at h
    obtain ⟨h1, h2⟩ := Prod.mk.injEq .. ▸ h
    cases h1
    rfl
  | (p, v) :: rest, st, acc, acc', sc', st', h, hno => by
    cases hc : compileF env p v high false with
    | error e =>
      simp only [lockLoop, compile, hc] at h
      obtain ⟨h1, _⟩ := Prod.mk.injEq .. ▸ h
      cases h1
    | ok c =>
      simp only [lockLoop, compile, hc] at h
      split at h
      · rename_i hcond
        exact absurd ⟨hcond.2.1, hcond.2.2⟩ (hno (p, v) (List.mem_cons_self _ _))
      · exact lockLoop_sc_empty env high rest _ _ _ _ _ h
          (fun pr hpr => hno pr (List.mem_cons_of_mem _ hpr))

theorem lockLoop_sc_latch (env : Env) (high : Bool) :
    ∀ (l : List (String × String)) (st : St) (acc acc' : List (String × String))
      (sc' : String) (st' : St) (c : String),
      lockLoop env high l st acc "" = (.ok (acc', sc'), st') →
      (env.sysPlatform, env.sysPythonVersion) ∈ l →
      compileF env env.sysPlatform env.sysPythonVersion high false = .ok c →
      sc' = c
  | [], _, _, _, _, _, _, _, hmem, _ => absurd hmem (List.not_mem_nil _)
  | (p, v) :: rest, st, acc, acc', sc', st', c, h, hmem, hc => by
    cases hc2 : compileF env p v high false with
    | error e =>
      simp only [lockLoop, compile, hc2] at h
      obtain ⟨h1, _⟩ := Prod.mk.injEq .. ▸ h
      cases h1
    | ok c2 =>
      simp only [lockLoop, compile, hc2] at h
      split at h
      · rename_i hcond
        have hp : p = env.sysPlatform := hcond.2.1
        have hv : v = env.sysPythonVersion := hcond.2.2
        have hceq : c2 = c := by
          rw [hp, hv] at hc2
          rw [hc2] at hc
          exact Except.ok.inj hc
        have hne : c2 ≠ "" := compileF_ok_ne_empty env p v high false c2 hc2
        have hpres := (lockLoop_ok_spec env high rest _ _ _ _ _ _ h).2.2.2.2.2 hne
        rw [hpres, hceq]
      · rename_i hcond
        have hpv : ¬((p, v) = (env.sysPlatform, env.sysPythonVersion)) := by
          intro he
          exact hcond ⟨trivial, congrArg Prod.fst he, congrArg Prod.snd he⟩
        have hmem' : (env.sysPlatform, env.sysPythonVersion) ∈ rest := by
          rcases List.mem_cons.mp hmem with h1 | h1
          · exact absurd h1.symm hpv
          · exact h1
        exact lockLoop_sc_latch env high rest _ _ _ _ _ _ h hmem' hc

theorem lockLoop_curKey (env : Env) (high : Bool) :
    ∀ (l : List (String × String)) (st : St) (acc acc' : List (String × String))
      (sc sc' : String) (st' : St) (c : String),
      lockLoop env high l st acc sc = (.ok (acc', sc'), st') →
      (∀ pr ∈ l, get_compilation_key pr.1 pr.2 high =
        get_compilation_key env.sysPlatform env.sysPythonVersion high →
        pr = (env.sysPlatform, env.sysPythonVersion)) →
      compileF env env.sysPlatform env.sysPythonVersion high false = .ok c →
      ((env.sysPlatform, env.sysPythonVersion) ∈ l ∨
        lookupA (get_compilation_key env.sysPlatform env.sysPythonVersion high) acc = some c) →
      lookupA (get_compilation_key env.sysPlatform env.sysPythonVersion high) acc' = some c
  | [], st, acc, acc', sc, sc', st', c, h, _, _, hmem => by
    simp only [lockLoop] at h
    obtain ⟨h1, _⟩ := Prod.mk.injEq .. ▸ h
    cases h1
    rcases hmem with h1 | h1
    · exact absurd h1 (List.not_mem_nil _)
    · exact h1
  | (p, v) :: rest, st, acc, acc', sc, sc', st', c, h, huniq, hc, hmem => by
    simp only [lockLoop, compile] at h
    cases hc2 : compileF env p v high false with
    | error e =>
      rw [hc2] at h
      obtain ⟨h1, _⟩ := Prod.mk.injEq .. ▸ h
      cases h1
    | ok c2 =>
      rw [hc2] at h
      apply lockLoop_curKey env high rest _ _ _ _ _ _ _ h
        (fun pr hpr => huniq pr (List.mem_cons_of_mem _ hpr)) hc
      by_cases hpv : (p, v) = (env.sysPlatform, env.sysPythonVersion)
      · right
        have hp : p = env.sysPlatform := congrArg Prod.fst hpv
        have hv : v = env.sysPythonVersion := congrArg Prod.snd hpv
        have hceq : c2 = c := by
          rw [hp, hv] at hc2
          rw [hc2] at hc
          exact Except.ok.inj hc
        rw [hp, hv, lookupA_upsert_self, hceq]
      · rcases hmem with h1 | h1
        · rcases List.mem_cons.mp h1 with h2 | h2
          · exact absurd h2.symm hpv
          · exact Or.inl h2
        · right
          rw [lookupA_upsert_other]
          · exact h1
          · intro hkeq
            exact hpv (huniq (p, v) (List.mem_cons_self _ _) hkeq.symm)

/- ## Lemmas about lock -/

theorem storeOf_setStore_same (st : St) (high : Bool) (sf : StoreFile) :
    storeOf (setStore st high sf) high = sf := by
  cases high <;> simp [storeOf, setStore]

theorem storeOf_setStore_other (st : St) (high : Bool) (sf : StoreFile) :
    storeOf (setStore st high sf) (!high) = storeOf st (!high) := by
  cases high <;> simp [storeOf, setStore]

theorem lock_lockCalls (env : Env) (st : St) (high : Bool) (sc : String) :
    (lock env st high sc).2.lockCalls = st.lockCalls + 1 := by
  simp only [lock]
  rcases hl : lockLoop env high (envPairs env)
    { st with lockCalls := st.lockCalls + 1 } [] sc with ⟨res, st1⟩
  have hinv := (lockLoop_st_inv env high (envPairs env)
    { st with lockCalls := st.lockCalls + 1 } [] sc).2.2
  rw [hl] at hinv
  cases res with
  | error e => exact hinv
  | ok pair =>
    obtain ⟨contents, sc'⟩ := pair
    show (setStore st1 high (.parsed contents)).lockCalls = st.lockCalls + 1
    cases high <;> simpa [setStore] using hinv

theorem lock_error_spec (env : Env) (st : St) (high : Bool) (sc e : String) (st' : St)
    (h : lock env st high sc = (.error e, st')) :
    st'.storeNormal = st.storeNormal ∧ st'.storeHigh = st.storeHigh ∧
    ∃ pr ∈ envPairs env, compileF env pr.1 pr.2 high false = .error e := by
  simp only [lock] at h
  rcases hl : lockLoop env high (envPairs env)
    { st with lockCalls := st.lockCalls + 1 } [] sc with ⟨res, st1⟩
  rw [hl] at h
  have hinv := lockLoop_st_inv env high (envPairs env)
    { st with lockCalls := st.lockCalls + 1 } [] sc
  rw [hl] at hinv
  cases res with
  | error e2 =>
    obtain ⟨h1, h2⟩ := Prod.mk.injEq .. ▸ h
    cases h1
    cases h2
    exact ⟨hinv.1, hinv.2.1, lockLoop_error_spec env high (envPairs env) _ _ _ _ _ hl⟩
  | ok pair =>
    obtain ⟨contents, sc'⟩ := pair
    obtain ⟨h1, _⟩ := Prod.mk.injEq .. ▸ h
    cases h1

theorem lock_ok_spec (env : Env) (st : St) (high : Bool) (sc r : String) (st' : St)
    (h : lock env st high sc = (.ok r, st')) :
    ∃ contents st1,
      lockLoop env high (envPairs env) { st with lockCalls := st.lockCalls + 1 } [] sc
        = (.ok (contents, r), st1) ∧
      st' = setStore st1 high (.parsed contents) := by
  simp only [lock] at h
  rcases hl : lockLoop env high (envPairs env)
    { st with lockCalls := st.lockCalls + 1 } [] sc with ⟨res, st1⟩
  rw [hl] at h
  cases res with
  | error e =>
    obtain ⟨h1, _⟩ := Prod.mk.injEq .. ▸ h
    cases h1
  | ok pair =>
    obtain ⟨contents, sc'⟩ := pair
    obtain ⟨h1, h2⟩ := Prod.mk.injEq .. ▸ h
    cases h1
    exact ⟨contents, st1, rfl, h2.symm⟩

theorem lock_ok_store (env : Env) (st : St) (high : Bool) (sc r : String) (st' : St)
    (h : lock env st high sc = (.ok r, st')) :
    ∃ contents, storeOf st' high = .parsed contents ∧
      storeOf st' (!high) = storeOf st (!high) ∧
      (∀ pr ∈ envPairs env, ∃ c, compileF env pr.1 pr.2 high false = .ok c) ∧
      (∀ e ∈ contents, ∃ pr ∈ envPairs env,
        compileF env pr.1 pr.2 high false = .ok e.2 ∧
        e.1 = get_compilation_key pr.1 pr.2 high) ∧
      (∀ pr ∈ envPairs env,
        (lookupA (get_compilation_key pr.1 pr.2 high) contents).isSome = true) := by
  obtain ⟨contents, st1, hl, hst⟩ := lock_ok_spec env st high sc r st' h
  obtain ⟨_, hall, hmem, _, hcov, _⟩ := lockLoop_ok_spec env high _ _ _ _ _ _ _ hl
  refine ⟨contents, ?_, ?_, hall, ?_, hcov⟩
  · rw [hst, storeOf_setStore_same]
  · rw [hst, storeOf_setStore_other]
    have hinv := lockLoop_st_inv env high (envPairs env)
      { st with lockCalls := st.lockCalls + 1 } [] sc
    rw [hl] at hinv
    have hN : st1.storeNormal = st.storeNormal := by simpa using hinv.1
    have hH : st1.storeHigh = st.storeHigh := by simpa using hinv.2.1
    cases high <;> simp [storeOf, hN, hH]
  · intro e he
    rcases hmem e he with h1 | h1
    · exact absurd h1 (List.not_mem_nil _)
    · exact h1

/- ## Lemmas about collectDirects -/

theorem collectDirects_isSome (oldSegs : List (List Char)) :
    ∀ names, (collectDirects oldSegs names).isSome = true ↔
      ∀ n ∈ names, ∃ l ∈ oldSegs, lineMatchesName n l = true
  | [] => by simp [collectDirects]
  | n :: ns => by
    simp only [collectDirects]
    cases hf : oldSegs.find? (fun l => lineMatchesName n l) with
    | none =>
      simp only [Option.isSome_none, Bool.false_eq_true, false_iff]
      intro h
      obtain ⟨l, hl, hm⟩ := h n (List.mem_cons_self _ _)
      have hs : (oldSegs.find? (fun l => lineMatchesName n l)).isSome = true :=
        List.find?_isSome.mpr ⟨l, hl, hm⟩
      rw [hf] at hs
      cases hs
    | some m =>
      rw [Option.isSome_map']
      rw [collectDirects_isSome oldSegs ns]
      constructor
      · intro h n' hn'
        rcases List.mem_cons.mp hn' with h1 | h1
        · subst h1
          exact ⟨m, List.mem_of_find?_eq_some hf, List.find?_some hf⟩
        · exact h n' h1
      · intro h n' hn'
        exact h n' (List.mem_cons_of_mem _ hn')

theorem collectDirects_mem (oldSegs : List (List Char)) :
    ∀ names ds, collectDirects oldSegs names = some ds →
      ∀ d ∈ ds, ∃ n ∈ names,
        oldSegs.find? (fun l => lineMatchesName n l) = some d
  | [], ds, h => by
    simp only [collectDirects, Option.some.injEq] at h
    subst h
    intro d hd
    exact absurd hd (List.not_mem_nil _)
  | n :: ns, ds, h => by
    simp only [collectDirects] at h
    cases hf : oldSegs.find? (fun l => lineMatchesName n l) with
    | none =>
      rw [hf] at h
      cases h
    | some m =>
      rw [hf] at h
      cases hc : collectDirects oldSegs ns with
      | none =>
        rw [hc] at h
        cases h
      | some ms =>
        rw [hc] at h
        have hds : ds = m :: ms := (Option.some.inj h).symm
        subst hds
        intro d hd
        rcases List.mem_cons.mp hd with h1 | h1
        · subst h1
          exact ⟨n, List.mem_cons_self _ _, hf⟩
        · obtain ⟨n', hn', hfd⟩ := collectDirects_mem oldSegs ns ms hc d h1
          exact ⟨n', List.mem_cons_of_mem _ hn', hfd⟩

/- ## C1: idempotence of the compatibility check -/

/-- C1: for every stored fragment whose resolver-version header equals the
current probe output, whose submodule-pin pairs all agree with the freshly
computed ones, whose lines cover every reported direct-dependency name, and
whose matched direct-dependency lines occur verbatim in the fresh full
resolution, `check_compilation` returns the stored fragment unchanged,
invokes `lock` zero times, and leaves both store files untouched. -/
theorem c1_idempotent (env : Env) (st : St) (high : Bool)
    (old uvv directs sysComp : String) (ds : List (List Char))
    (hget : get_compilation st env.sysPlatform env.sysPythonVersion high = .ok old)
    (hne : old ≠ "")
    (hhdr : uvSearch old = some uvv)
    (hprobe : get_uv_version env = .ok uvv)
    (hdir : compileF env env.sysPlatform env.sysPythonVersion high true = .ok directs)
    (hsub : subMismatch old directs = false)
    (hcol : collectDirects (splitNl old.data) (depFind (splitNl directs.data)) = some ds)
    (hfull : compileF env env.sysPlatform env.sysPythonVersion high false = .ok sysComp)
    (hinf : ∀ d ∈ ds, isInfixL d sysComp.data = true) :
    (check_compilation env st high).1 = .ok old ∧
    (check_compilation env st high).2.lockCalls = st.lockCalls ∧
    (check_compilation env st high).2.storeNormal = st.storeNormal ∧
    (check_compilation env st high).2.storeHigh = st.storeHigh := by
  have hnn : ¬(uvv ≠ uvv) := fun hq => hq rfl
  have hany : ds.any (fun d => !isInfixL d sysComp.data) = false := by
    rw [List.any_eq_false]
    intro d hd
    simp [hinf d hd]
  have hred : check_compilation env st high = (.ok old,
      addCall (addCall st ⟨env.sysPlatform, env.sysPythonVersion, high, true⟩)
        ⟨env.sysPlatform, env.sysPythonVersion, high, false⟩) := by
    simp only [check_compilation, hget, if_neg hne, hhdr, hprobe, if_neg hnn, compile,
      hdir, hsub, hcol, hfull, hany, Bool.false_eq_true, if_false]
  rw [hred]
  exact ⟨rfl, by simp [addCall], by simp [addCall], by simp [addCall]⟩

/-- Witness for C1: the benign concrete environment with a matching stored
fragment returns it unchanged without relocking. -/
theorem c1_idempotent_witness :
    (check_compilation envGood stGood false).1 = .ok fragGood ∧
    (check_compilation envGood stGood false).2.lockCalls = stGood.lockCalls ∧
    (check_compilation envGood stGood false).2.storeNormal = stGood.storeNormal ∧
    (check_compilation envGood stGood false).2.storeHigh = stGood.storeHigh :=
  c1_idempotent envGood stGood false fragGood "1.0" fragGood fragGood
    ["foo==1.0".data]
    (by decide) (by decide) (by decide) (by decide) (by decide) (by decide)
    (by decide) (by decide) (by decide)

/- ## C9: corrupt store file aborts instead of relocking -/

/-- C9: when the selected store file exists but is not parseable JSON,
`get_compilation` raises and `check_compilation` propagates the error with
the state untouched — in particular no relock happens. -/
theorem c9_corrupt_store (env : Env) (st : St) (high : Bool)
    (h : storeOf st high = .corrupt) :
    check_compilation env st high = (.error jsonDecodeError, st) := by
  have hg : get_compilation st env.sysPlatform env.sysPythonVersion high
      = .error jsonDecodeError := by
    unfold get_compilation
    rw [h]
  simp only [check_compilation, hg]

/-- Witness for C9 at a concrete corrupt store. -/
theorem c9_corrupt_store_witness :
    check_compilation envGood stCorrupt false = (.error jsonDecodeError, stCorrupt) :=
  c9_corrupt_store envGood stCorrupt false rfl

/- ## C7: all-or-nothing store write in lock -/

/-- C7: if any resolver invocation during a full relock fails, the error text
propagates and neither store file changes; on success the selected store
holds an entry for every supported platform × version pair, written once;
and a failing pair forces the error outcome. -/
theorem c7_all_or_nothing (env : Env) (st : St) (high : Bool) (sc : String) :
    (∀ e st', lock env st high sc = (.error e, st') →
      st'.storeNormal = st.storeNormal ∧ st'.storeHigh = st.storeHigh ∧
      ∃ pr ∈ envPairs env, compileF env pr.1 pr.2 high false = .error e) ∧
    (∀ r st', lock env st high sc = (.ok r, st') →
      ∃ contents, storeOf st' high = .parsed contents ∧
        storeOf st' (!high) = storeOf st (!high) ∧
        ∀ pr ∈ envPairs env,
          (lookupA (get_compilation_key pr.1 pr.2 high) contents).isSome = true) ∧
    ((∃ pr ∈ envPairs env, ∃ e, compileF env pr.1 pr.2 high false = .error e) →
      ∃ e st', lock env st high sc = (.error e, st') ∧
        st'.storeNormal = st.storeNormal ∧ st'.storeHigh = st.storeHigh) := by
  refine ⟨?_, ?_, ?_⟩
  · intro e st' h
    exact lock_error_spec env st high sc e st' h
  · intro r st' h
    obtain ⟨contents, h1, h2, _, _, h5⟩ := lock_ok_store env st high sc r st' h
    exact ⟨contents, h1, h2, h5⟩
  · intro hfail
    rcases hres : lock env st high sc with ⟨res, st'⟩
    cases res with
    | error e =>
      obtain ⟨h1, h2, _⟩ := lock_error_spec env st high sc e st' hres
      exact ⟨e, st', rfl, h1, h2⟩
    | ok r =>
      obtain ⟨_, _, _, hall, _, _⟩ := lock_ok_store env st high sc r st' hres
      obtain ⟨pr, hpr, e, he⟩ := hfail
      obtain ⟨c, hc⟩ := hall pr hpr
      rw [hc] at he
      cases he

/-- Witness for C7: with a resolver that always fails, a relock over a store
holding data leaves both store files exactly as they were. -/
theorem c7_all_or_nothing_witness :
    ∃ e st', lock envFail stGood false "" = (.error e, st') ∧
      st'.storeNormal = stGood.storeNormal ∧ st'.storeHigh = stGood.storeHigh :=
  (c7_all_or_nothing envFail stGood false "").2.2
    ⟨("linux", "3.11"), by decide, "boom", by decide⟩

/- ## C3: positional, non-strict submodule-pin comparison -/

/-- C3: under the guards preceding the submodule check (and a benign
remainder of the pipeline), the check relocks exactly when some positionally
zipped pair of (name, sha) groups differs; the zip is non-strict, so a
difference in pin counts alone (pairs all equal) does not relock and the
stored fragment is returned. -/
theorem c3_submodule_zip (env : Env) (st : St) (high : Bool)
    (old uvv directs sysComp : String) (ds : List (List Char))
    (hget : get_compilation st env.sysPlatform env.sysPythonVersion high = .ok old)
    (hne : old ≠ "")
    (hhdr : uvSearch old = some uvv)
    (hprobe : get_uv_version env = .ok uvv)
    (hdir : compileF env env.sysPlatform env.sysPythonVersion high true = .ok directs)
    (hcol : collectDirects (splitNl old.data) (depFind (splitNl directs.data)) = some ds)
    (hfull : compileF env env.sysPlatform env.sysPythonVersion high false = .ok sysComp)
    (hinf : ∀ d ∈ ds, isInfixL d sysComp.data = true) :
    ((check_compilation env st high).2.lockCalls =
      st.lockCalls + (if subMismatch old directs then 1 else 0)) ∧
    (subMismatch old directs = false → (check_compilation env st high).1 = .ok old) ∧
    (subMismatch old directs = true →
      (check_compilation env st high).1 =
        (lock env (addCall st ⟨env.sysPlatform, env.sysPythonVersion, high, true⟩)
          high "").1) ∧
    (subMismatch old directs = true ↔
      ∃ pr ∈ (subFind (splitNl old.data)).zip (subFind (splitNl directs.data)),
        pr.1 ≠ pr.2) := by
  have hnn : ¬(uvv ≠ uvv) := fun hq => hq rfl
  have hiff : subMismatch old directs = true ↔
      ∃ pr ∈ (subFind (splitNl old.data)).zip (subFind (splitNl directs.data)),
        pr.1 ≠ pr.2 := by
    unfold subMismatch
    rw [List.any_eq_true]
    constructor
    · rintro ⟨pr, hpr, hd⟩
      exact ⟨pr, hpr, of_decide_eq_true hd⟩
    · rintro ⟨pr, hpr, hd⟩
      exact ⟨pr, hpr, decide_eq_true hd⟩
  have hany : ds.any (fun d => !isInfixL d sysComp.data) = false := by
    rw [List.any_eq_false]
    intro d hd
    simp [hinf d hd]
  have hfalse : subMismatch old directs = false →
      check_compilation env st high = (.ok old,
        addCall (addCall st ⟨env.sysPlatform, env.sysPythonVersion, high, true⟩)
          ⟨env.sysPlatform, env.sysPythonVersion, high, false⟩) := by
    intro hsub
    simp only [check_compilation, hget, if_neg hne, hhdr, hprobe, if_neg hnn, compile,
      hdir, hsub, hcol, hfull, hany, Bool.false_eq_true, if_false]
  have htrue : subMismatch old directs = true →
      check_compilation env st high =
        lock env (addCall st ⟨env.sysPlatform, env.sysPythonVersion, high, true⟩)
          high "" := by
    intro hsub
    simp only [check_compilation, hget, if_neg hne, hhdr, hprobe, if_neg hnn, compile,
      hdir, hsub, if_true]
  refine ⟨?_, fun hs => by rw [hfalse hs], fun hs => by rw [htrue hs], hiff⟩
  cases hsub : subMismatch old directs with
  | false =>
    rw [hfalse hsub]
    simp [addCall]
  | true =>
    rw [htrue hsub, lock_lockCalls]
    simp [addCall]

/-- Witness for C3: a stored fragment holding one pin more than the current
environment reports, with the shared position agreeing: no relock happens
and the stored fragment is returned. -/
theorem c3_submodule_zip_witness :
    subMismatch oldSub dirSub = false ∧
    (subFind (splitNl oldSub.data)).length ≠ (subFind (splitNl dirSub.data)).length ∧
    (check_compilation envSub stSub false).1 = .ok oldSub := by
  refine ⟨by decide, by decide, ?_⟩
  have h := c3_submodule_zip envSub stSub false oldSub "1.0" dirSub dirSub
    ["foo==1.0".data]
    (by decide) (by decide) (by decide) (by decide) (by decide) (by decide)
    (by decide) (by decide)
  exact h.2.1 (by decide)

/- ## C6: resolver-version invalidation -/

/-- C6: a stored fragment with an absent, malformed or mismatched
resolver-version header triggers exactly one relock, and every fragment in
the store that relock writes carries a header stamping the current probe
output. -/
theorem c6_version_invalidation (env : Env) (st : St) (high : Bool)
    (old uvv : String)
    (hget : get_compilation st env.sysPlatform env.sysPythonVersion high = .ok old)
    (hne : old ≠ "")
    (hprobe : get_uv_version env = .ok uvv)
    (hhdr : uvSearch old = none ∨ ∃ w, uvSearch old = some w ∧ w ≠ uvv)
    (huv1 : uvv.data ≠ []) (huv2 : '\n' ∉ uvv.data) :
    (check_compilation env st high).2.lockCalls = st.lockCalls + 1 ∧
    ∀ r st', check_compilation env st high = (.ok r, st') →
      ∃ m, storeOf st' high = .parsed m ∧
        ∀ e ∈ m, uvSearch e.2 = some uvv := by
  have hred : check_compilation env st high = lock env st high "" := by
    rcases hhdr with hn | ⟨w, hw, hwne⟩
    · simp only [check_compilation, hget, if_neg hne, hn]
    · simp only [check_compilation, hget, if_neg hne, hw, hprobe, if_pos hwne]
  rw [hred]
  refine ⟨lock_lockCalls env st high "", ?_⟩
  intro r st' hlk
  obtain ⟨m, hm, _, _, hmem, _⟩ := lock_ok_store env st high "" r st' hlk
  refine ⟨m, hm, ?_⟩
  intro e he
  obtain ⟨pr, _, hco, _⟩ := hmem e he
  obtain ⟨deps, pins, uvv2, _, _, hu2, hc⟩ :=
    compileF_ok_shape env pr.1 pr.2 high false e.2 hco
  have huvv : uvv2 = uvv := Except.ok.inj (hu2.symm.trans hprobe)
  rw [huvv] at hc
  rw [hc]
  exact uvSearch_mkFragment uvv pins deps env.nodepsFile huv1 huv2

/-- Witness for C6: a stored fragment stamped `0.9` against a probe reporting
`1.0` relocks and the store ends up with `1.0` headers everywhere. -/
theorem c6_version_invalidation_witness :
    (check_compilation envGood stStale false).2.lockCalls = stStale.lockCalls + 1 ∧
    ∃ m, storeOf (check_compilation envGood stStale false).2 false = .parsed m ∧
      ∀ e ∈ m, uvSearch e.2 = some "1.0" := by
  have h := c6_version_invalidation envGood stStale false oldStale "1.0"
    (by decide) (by decide) (by decide)
    (Or.inr ⟨"0.9", by decide, by decide⟩) (by decide) (by decide)
  exact ⟨h.1, h.2 fragGood (check_compilation envGood stStale false).2 (by decide)⟩

/- ## C10: unsupported current environment yields an empty fragment -/

/-- Membership in the supported cross-product projects to membership in each
axis. -/
theorem envPairs_mem (env : Env) (pr : String × String) (h : pr ∈ envPairs env) :
    pr.1 ∈ env.platforms ∧ pr.2 ∈ env.pythonVersions := by
  unfold envPairs at h
  rw [List.mem_flatMap] at h
  obtain ⟨p, hp, hmem⟩ := h
  rw [List.mem_map] at hmem
  obtain ⟨v, hv, heq⟩ := hmem
  cases heq
  exact ⟨hp, hv⟩

/-- C10: with a current platform or Python version outside the supported
sets and no store file, `check_compilation` relocks, the whole supported
cross-product is written, and the empty string is returned without error. -/
theorem c10_off_platform (env : Env) (st : St) (high : Bool)
    (hoff : env.sysPlatform ∉ env.platforms ∨ env.sysPythonVersion ∉ env.pythonVersions)
    (hmiss : storeOf st high = .missing)
    (hok : ∀ pr ∈ envPairs env, ∃ c, compileF env pr.1 pr.2 high false = .ok c) :
    (check_compilation env st high).1 = .ok "" ∧
    ∃ m, storeOf (check_compilation env st high).2 high = .parsed m ∧
      ∀ pr ∈ envPairs env,
        (lookupA (get_compilation_key pr.1 pr.2 high) m).isSome = true := by
  have hg : get_compilation st env.sysPlatform env.sysPythonVersion high = .ok "" := by
    unfold get_compilation
    rw [hmiss]
  have hred : check_compilation env st high = lock env st high "" := by
    simp only [check_compilation, hg, if_true]
  rw [hred]
  obtain ⟨acc', sc', st1, hloop⟩ := lockLoop_total env high (envPairs env)
    { st with lockCalls := st.lockCalls + 1 } [] "" hok
  have hlk : lock env st high "" = (.ok sc', setStore st1 high (.parsed acc')) := by
    simp only [lock, hloop]
  have hno : ∀ pr ∈ envPairs env,
      ¬(pr.1 = env.sysPlatform ∧ pr.2 = env.sysPythonVersion) := by
    rintro pr hpr ⟨h1, h2⟩
    obtain ⟨hp, hv⟩ := envPairs_mem env pr hpr
    rcases hoff with ho | ho
    · exact ho (h1 ▸ hp)
    · exact ho (h2 ▸ hv)
  have hsc : sc' = "" := lockLoop_sc_empty env high (envPairs env) _ _ _ _ _ hloop hno
  obtain ⟨_, _, _, _, hcov, _⟩ := lockLoop_ok_spec env high _ _ _ _ _ _ _ hloop
  rw [hlk, hsc]
  refine ⟨rfl, acc', ?_, hcov⟩
  exact storeOf_setStore_same st1 high (.parsed acc')

/-- Witness for C10: current platform `sunos` with supported set `linux`:
the check returns the empty fragment and writes the full cross-product. -/
theorem c10_off_platform_witness :
    (check_compilation envOff stEmpty false).1 = .ok "" ∧
    ∃ m, storeOf (check_compilation envOff stEmpty false).2 false = .parsed m ∧
      ∀ pr ∈ envPairs envOff,
        (lookupA (get_compilation_key pr.1 pr.2 false) m).isSome = true := by
  have h := c10_off_platform envOff stEmpty false (Or.inl (by decide)) rfl ?_
  · exact h
  · intro pr hpr
    have hpr' : pr = ("linux", "3.11") := by
      have : envPairs envOff = [("linux", "3.11")] := by decide
      rw [this] at hpr
      exact List.mem_singleton.mp hpr
    subst hpr'
    exact ⟨"# uv 1.0\nfoo==1.0\n", by decide⟩

/- ## C2: lock always re-invokes the resolver for the current key -/

/-- The store write does not touch the invocation history. -/
theorem setStore_resolverCalls (st : St) (high : Bool) (sf : StoreFile) :
    (setStore st high sf).resolverCalls = st.resolverCalls := by
  cases high <;> simp [setStore]

/-- Counterexample to C2: `lock` called with an already-computed fragment
`PRE` still invokes the resolver for the current key and stores the fresh
result rather than the supplied fragment; only the return value is `PRE`. -/
theorem c2_counterexample :
    (lock envGood stEmpty false "PRE").1 = .ok "PRE" ∧
    storeOf (lock envGood stEmpty false "PRE").2 false =
      .parsed [("linux_3.11", fragGood)] ∧
    fragGood ≠ "PRE" ∧
    (lock envGood stEmpty false "PRE").2.resolverCalls =
      [⟨"linux", "3.11", false, false⟩] := by decide

/-- C2 as amended: `lock` compiles and stores a fresh fragment for every
supported pair including the current one; a supplied fragment is returned
as-is but the store receives the fresh computation (equal in value under the
deterministic resolver); without a supplied fragment the returned fragment
is the one stored under the current key. -/
theorem c2_amended (env : Env) (st : St) (high : Bool) (sc r : String) (st' : St)
    (hlk : lock env st high sc = (.ok r, st'))
    (huniq : ∀ pr ∈ envPairs env,
      get_compilation_key pr.1 pr.2 high =
        get_compilation_key env.sysPlatform env.sysPythonVersion high →
      pr = (env.sysPlatform, env.sysPythonVersion))
    (hmem : (env.sysPlatform, env.sysPythonVersion) ∈ envPairs env) :
    ∃ m c, storeOf st' high = .parsed m ∧
      compileF env env.sysPlatform env.sysPythonVersion high false = .ok c ∧
      lookupA (get_compilation_key env.sysPlatform env.sysPythonVersion high) m
        = some c ∧
      (sc = "" → r = c) ∧
      (sc ≠ "" → r = sc) ∧
      (⟨env.sysPlatform, env.sysPythonVersion, high, false⟩ : ResolverCall) ∈
        st'.resolverCalls := by
  obtain ⟨contents, st1, hloop, hst⟩ := lock_ok_spec env st high sc r st' hlk
  obtain ⟨htr, hall, _, _, _, hpres⟩ := lockLoop_ok_spec env high _ _ _ _ _ _ _ hloop
  obtain ⟨c, hc⟩ := hall (env.sysPlatform, env.sysPythonVersion) hmem
  have hkey := lockLoop_curKey env high (envPairs env) _ _ _ _ _ _ c hloop huniq hc
    (Or.inl hmem)
  refine ⟨contents, c, ?_, hc, hkey, ?_, hpres, ?_⟩
  · rw [hst, storeOf_setStore_same]
  · intro hsc
    subst hsc
    exact lockLoop_sc_latch env high (envPairs env) _ _ _ _ _ c hloop hmem hc
  · rw [hst, setStore_resolverCalls, htr]
    refine List.mem_append.mpr (Or.inr ?_)
    exact List.mem_map.mpr ⟨(env.sysPlatform, env.sysPythonVersion), hmem, rfl⟩

/-- Witness for the amended C2 at the concrete single-pair environment. -/
theorem c2_amended_witness :
    ∃ m c, storeOf (lock envGood stEmpty false "").2 false = .parsed m ∧
      compileF envGood envGood.sysPlatform envGood.sysPythonVersion false false
        = .ok c ∧
      lookupA (get_compilation_key envGood.sysPlatform envGood.sysPythonVersion false) m
        = some c ∧
      (("" : String) = "" → fragGood = c) ∧
      (("" : String) ≠ "" → fragGood = "") ∧
      (⟨envGood.sysPlatform, envGood.sysPythonVersion, false, false⟩ : ResolverCall) ∈
        (lock envGood stEmpty false "").2.resolverCalls :=
  c2_amended envGood stEmpty false "" fragGood (lock envGood stEmpty false "").2
    (by decide) (by decide) (by decide)

/- ## C4: the relock after a version mismatch still recomputes -/

/-- Counterexample to C4: in the direct-dependency version-mismatch relock,
the resolver is invoked a second time for the current full resolution — the
trace holds the no-deps call, the full call from step 6, and the full call
repeated inside `lock` — so the passed-through fragment does not avoid the
recomputation. -/
theorem c4_counterexample :
    (check_compilation envBump stGood false).1 = .ok fullBump ∧
    (check_compilation envBump stGood false).2.lockCalls = 1 ∧
    (check_compilation envBump stGood false).2.resolverCalls =
      [⟨"linux", "3.11", false, true⟩, ⟨"linux", "3.11", false, false⟩,
        ⟨"linux", "3.11", false, false⟩] := by decide

/-- C4 as amended: after all direct names are found, a full fragment is
computed and a relock is triggered exactly when some collected line is not a
substring of it; that relock receives the precomputed fragment and returns
it, but the resolver still runs again for the current key while rebuilding
the store. -/
theorem c4_amended (env : Env) (st : St) (high : Bool)
    (old uvv directs sysComp : String) (ds : List (List Char))
    (hget : get_compilation st env.sysPlatform env.sysPythonVersion high = .ok old)
    (hne : old ≠ "")
    (hhdr : uvSearch old = some uvv)
    (hprobe : get_uv_version env = .ok uvv)
    (hdir : compileF env env.sysPlatform env.sysPythonVersion high true = .ok directs)
    (hsub : subMismatch old directs = false)
    (hcol : collectDirects (splitNl old.data) (depFind (splitNl directs.data)) = some ds)
    (hfull : compileF env env.sysPlatform env.sysPythonVersion high false = .ok sysComp) :
    (ds.any (fun d => !isInfixL d sysComp.data) = false →
      (check_compilation env st high).1 = .ok old ∧
      (check_compilation env st high).2.lockCalls = st.lockCalls) ∧
    (ds.any (fun d => !isInfixL d sysComp.data) = true →
      (check_compilation env st high).2.lockCalls = st.lockCalls + 1 ∧
      (check_compilation env st high).1 =
        (lock env
          (addCall (addCall st ⟨env.sysPlatform, env.sysPythonVersion, high, true⟩)
            ⟨env.sysPlatform, env.sysPythonVersion, high, false⟩)
          high sysComp).1 ∧
      (∀ r st', check_compilation env st high = (.ok r, st') → r = sysComp) ∧
      ((env.sysPlatform, env.sysPythonVersion) ∈ envPairs env →
        ∀ r st', check_compilation env st high = (.ok r, st') →
          st.resolverCalls.count
              ⟨env.sysPlatform, env.sysPythonVersion, high, false⟩ + 2 ≤
            st'.resolverCalls.count
              ⟨env.sysPlatform, env.sysPythonVersion, high, false⟩)) := by
  have hnn : ¬(uvv ≠ uvv) := fun hq => hq rfl
  constructor
  · intro hany
    have hred : check_compilation env st high = (.ok old,
        addCall (addCall st ⟨env.sysPlatform, env.sysPythonVersion, high, true⟩)
          ⟨env.sysPlatform, env.sysPythonVersion, high, false⟩) := by
      simp only [check_compilation, hget, if_neg hne, hhdr, hprobe, if_neg hnn, compile,
        hdir, hsub, hcol, hfull, hany, Bool.false_eq_true, if_false]
    rw [hred]
    exact ⟨rfl, by simp [addCall]⟩
  · intro hany
    have hred : check_compilation env st high =
        lock env
          (addCall (addCall st ⟨env.sysPlatform, env.sysPythonVersion, high, true⟩)
            ⟨env.sysPlatform, env.sysPythonVersion, high, false⟩)
          high sysComp := by
      simp only [check_compilation, hget, if_neg hne, hhdr, hprobe, if_neg hnn, compile,
        hdir, hsub, hcol, hfull, hany, Bool.false_eq_true, if_false, if_true]
    have hscne : sysComp ≠ "" :=
      compileF_ok_ne_empty env env.sysPlatform env.sysPythonVersion high false
        sysComp hfull
    refine ⟨?_, by rw [hred], ?_, ?_⟩
    · rw [hred, lock_lockCalls]
      simp [addCall]
    · intro r st' heq
      rw [hred] at heq
      obtain ⟨contents, st1, hloop, _⟩ := lock_ok_spec env _ high sysComp r st' heq
      exact (lockLoop_ok_spec env high _ _ _ _ _ _ _ hloop).2.2.2.2.2 hscne
    · intro hmem r st' heq
      rw [hred] at heq
      obtain ⟨contents, st1, hloop, hst⟩ := lock_ok_spec env _ high sysComp r st' heq
      have htr := (lockLoop_ok_spec env high _ _ _ _ _ _ _ hloop).1
      have htr' : st'.resolverCalls =
          (st.resolverCalls ++
            [⟨env.sysPlatform, env.sysPythonVersion, high, true⟩,
              ⟨env.sysPlatform, env.sysPythonVersion, high, false⟩]) ++
            (envPairs env).map
              (fun pr => (⟨pr.1, pr.2, high, false⟩ : ResolverCall)) := by
        rw [hst, setStore_resolverCalls, htr]
        simp [addCall]
      rw [htr', List.count_append, List.count_append]
      have h1 : ([(⟨env.sysPlatform, env.sysPythonVersion, high, true⟩ : ResolverCall),
          ⟨env.sysPlatform, env.sysPythonVersion, high, false⟩]).count
            ⟨env.sysPlatform, env.sysPythonVersion, high, false⟩ = 1 := by
        simp [List.count_cons, beq_iff_eq, ResolverCall.mk.injEq]
      have h2 : 0 < ((envPairs env).map
          (fun pr => (⟨pr.1, pr.2, high, false⟩ : ResolverCall))).count
            ⟨env.sysPlatform, env.sysPythonVersion, high, false⟩ := by
        rw [List.count_pos_iff]
        exact List.mem_map.mpr ⟨(env.sysPlatform, env.sysPythonVersion), hmem, rfl⟩
      omega

/-- Witness for the amended C4 at the concrete mismatching environment. -/
theorem c4_amended_witness :
    (check_compilation envBump stGood false).2.lockCalls = stGood.lockCalls + 1 ∧
    (check_compilation envBump stGood false).1 =
      (lock envBump
        (addCall (addCall stGood ⟨envBump.sysPlatform, envBump.sysPythonVersion,
          false, true⟩) ⟨envBump.sysPlatform, envBump.sysPythonVersion, false, false⟩)
        false fullBump).1 := by
  have h := c4_amended envBump stGood false fragGood "1.0" fragGood fullBump
    ["foo==1.0".data]
    (by decide) (by decide) (by decide) (by decide) (by decide) (by decide)
    (by decide) (by decide)
  have h2 := h.2 (by decide)
  exact ⟨h2.1, h2.2.1⟩

/- ## C5: the direct-dependency search is a regex with a wildcard dot -/

/-- Counterexample to C5: the direct resolution reports the name `a.b`; the
stored fragment has no line with that name (compared literally,
case-insensitively) yet no relock is triggered, because the dot in the
interpolated regex matches the `x` of the stored `axb==2.0` line. -/
theorem c5_counterexample :
    depFind (splitNl dirDotted.data) = ["a.b".data] ∧
    (∀ l ∈ splitNl oldDotted.data, specNameLine "a.b".data l = false) ∧
    (check_compilation envDotted stDotted false).1 = .ok oldDotted ∧
    (check_compilation envDotted stDotted false).2.lockCalls = 0 := by decide

/-- C5 as amended: for every reported dependency line, the stored fragment is
searched for a line matching the reported name case-insensitively with each
dot of the name matching any single character, followed by `==` and a
nonempty version; a relock is triggered exactly when some reported name has
no such line, and the matches found are the collected lines. -/
theorem c5_amended (env : Env) (st : St) (high : Bool)
    (old uvv directs sysComp : String)
    (hget : get_compilation st env.sysPlatform env.sysPythonVersion high = .ok old)
    (hne : old ≠ "")
    (hhdr : uvSearch old = some uvv)
    (hprobe : get_uv_version env = .ok uvv)
    (hdir : compileF env env.sysPlatform env.sysPythonVersion high true = .ok directs)
    (hsub : subMismatch old directs = false)
    (hfull : compileF env env.sysPlatform env.sysPythonVersion high false = .ok sysComp)
    (hinf : ∀ ds, collectDirects (splitNl old.data) (depFind (splitNl directs.data))
      = some ds → ∀ d ∈ ds, isInfixL d sysComp.data = true) :
    ((check_compilation env st high).2.lockCalls = st.lockCalls ↔
      ∀ n ∈ depFind (splitNl directs.data), ∃ l ∈ splitNl old.data,
        lineMatchesName n l = true) ∧
    (collectDirects (splitNl old.data) (depFind (splitNl directs.data)) = none →
      (check_compilation env st high).1 =
        (lock env (addCall st ⟨env.sysPlatform, env.sysPythonVersion, high, true⟩)
          high "").1) ∧
    (∀ ds, collectDirects (splitNl old.data) (depFind (splitNl directs.data))
      = some ds →
      ∀ d ∈ ds, ∃ n ∈ depFind (splitNl directs.data),
        (splitNl old.data).find? (fun l => lineMatchesName n l) = some d) := by
  have hnn : ¬(uvv ≠ uvv) := fun hq => hq rfl
  have hnone : collectDirects (splitNl old.data) (depFind (splitNl directs.data))
      = none →
      check_compilation env st high =
        lock env (addCall st ⟨env.sysPlatform, env.sysPythonVersion, high, true⟩)
          high "" := by
    intro hcn
    simp only [check_compilation, hget, if_neg hne, hhdr, hprobe, if_neg hnn, compile,
      hdir, hsub, Bool.false_eq_true, if_false, hcn]
  refine ⟨?_, fun hcn => by rw [hnone hcn], fun ds hds =>
    collectDirects_mem (splitNl old.data) (depFind (splitNl directs.data)) ds hds⟩
  cases hcol : collectDirects (splitNl old.data) (depFind (splitNl directs.data)) with
  | none =>
    apply iff_of_false
    · rw [hnone hcol, lock_lockCalls]
      simp [addCall]
    · intro hall
      have hs := (collectDirects_isSome (splitNl old.data)
        (depFind (splitNl directs.data))).mpr hall
      rw [hcol] at hs
      cases hs
  | some ds =>
    apply iff_of_true
    · have hany : ds.any (fun d => !isInfixL d sysComp.data) = false := by
        rw [List.any_eq_false]
        intro d hd
        simp [hinf ds hcol d hd]
      have hred : check_compilation env st high = (.ok old,
          addCall (addCall st ⟨env.sysPlatform, env.sysPythonVersion, high, true⟩)
            ⟨env.sysPlatform, env.sysPythonVersion, high, false⟩) := by
        simp only [check_compilation, hget, if_neg hne, hhdr, hprobe, if_neg hnn,
          compile, hdir, hsub, hcol, hfull, hany, Bool.false_eq_true, if_false]
      rw [hred]
      simp [addCall]
    · exact (collectDirects_isSome (splitNl old.data)
        (depFind (splitNl directs.data))).mp (by rw [hcol]; rfl)

/-- Witness for the amended C5 at the benign concrete environment. -/
theorem c5_amended_witness :
    (check_compilation envGood stGood false).2.lockCalls = stGood.lockCalls := by
  have h := c5_amended envGood stGood false fragGood "1.0" fragGood fragGood
    (by decide) (by decide) (by decide) (by decide) (by decide) (by decide)
    (by decide) ?_
  · exact h.1.mpr (by decide)
  · intro ds hds
    have hc : collectDirects (splitNl fragGood.data)
        (depFind (splitNl fragGood.data)) = some ["foo==1.0".data] := by decide
    rw [hc] at hds
    have : ds = ["foo==1.0".data] := (Option.some.inj hds).symm
    subst this
    decide

/- ## C8: format invariant of compiled fragments -/

theorem mem_of_getLast?_eq {α : Type} :
    ∀ (l : List α) (a : α), l.getLast? = some a → a ∈ l
  | [], _, h => by cases h
  | [x], a, h => by
    rw [List.getLast?_singleton] at h
    rw [Option.some.inj h]
    exact List.mem_cons_self _ _
  | x :: y :: ys, a, h => by
    rw [List.getLast?_cons_cons] at h
    exact List.mem_cons_of_mem _ (mem_of_getLast?_eq (y :: ys) a h)

theorem pyStrip_subset (l : List Char) (c : Char) (h : c ∈ pyStrip l) : c ∈ l := by
  unfold pyStrip at h
  rw [List.mem_reverse] at h
  have h1 := (List.dropWhile_sublist _).subset h
  rw [List.mem_reverse] at h1
  exact (List.dropWhile_sublist _).subset h1

theorem pyLines_subset (cs : List Char) (l : List Char) (h : l ∈ pyLines cs) :
    l ∈ splitNl cs := by
  simp only [pyLines] at h
  split at h
  · exact List.mem_of_mem_dropLast h
  · exact h

theorem stripPref_append : ∀ (p rest : List Char), stripPref p (p ++ rest) = some rest
  | [], _ => rfl
  | c :: ps, rest => by simp [stripPref, stripPref_append ps rest]

theorem takeWhile_append_stop {pfn : Char → Bool} :
    ∀ (xs : List Char) (y : Char) (ys : List Char), (∀ x ∈ xs, pfn x = true) →
      pfn y = false → (xs ++ y :: ys).takeWhile pfn = xs
  | [], y, ys, _, hy => by simp [List.takeWhile_cons, hy]
  | x :: xs, y, ys, hxs, hy => by
    have hx : pfn x = true := hxs x (List.mem_cons_self _ _)
    simp [List.takeWhile_cons, hx,
      takeWhile_append_stop xs y ys (fun a ha => hxs a (List.mem_cons_of_mem _ ha)) hy]

theorem depName_hash (rest : List Char) : depName ('#' :: rest) = none := by
  have h : nameChar '#' = false := by decide
  simp [depName, List.takeWhile_cons, h]

/-- C8: a fragment produced by `compile` (under collaborator outputs meeting
their documented interfaces: a nonempty, newline-free probe version;
submodule names and revs that are nonempty and whitespace-free; resolver and
no-compile lines that are not pin-shaped; a nonempty final line) begins with
a line matching the resolver-version header pattern, carries all its
submodule-pin lines contiguously right after the header and before every
dependency line, then the stripped resolver lines followed by the stripped
no-compile lines, and ends with exactly one trailing newline. -/
theorem c8_fragment_format (env : Env) (p v : String) (high nd : Bool)
    (frag uvv deps : String) (pins : List (String × String))
    (hok : compileF env p v high nd = .ok frag)
    (hdeps : env.resolveDeps p v high nd = .ok deps)
    (hpins : submodulePinsF env = .ok pins)
    (hprobe : get_uv_version env = .ok uvv)
    (huv1 : uvv.data ≠ []) (huv2 : '\n' ∉ uvv.data)
    (hpin : ∀ pr ∈ pins, (∃ nm, pr.1.data = "submodules/".data ++ nm ∧ nm ≠ [] ∧
      ∀ c ∈ nm, c.isWhitespace = false) ∧ pr.2.data ≠ [] ∧
      ∀ c ∈ pr.2.data, c.isWhitespace = false)
    (hbody : ∀ l ∈ (pyLines deps.data).map pyStrip ++
        (pyLines env.nodepsFile.data).map pyStrip,
      stripPref "# submodules/".data l = none)
    (hlast : (fragmentLines uvv pins deps env.nodepsFile).getLast? ≠ some []) :
    frag = mkFragment uvv pins deps env.nodepsFile ∧
    splitNl frag.data = fragmentLines uvv pins deps env.nodepsFile ++ [[]] ∧
    fragmentLines uvv pins deps env.nodepsFile =
      ("# uv ".data ++ uvv.data) :: (pins.map pinLineC ++
        ((pyLines deps.data).map pyStrip ++ (pyLines env.nodepsFile.data).map pyStrip)) ∧
    (uvIntra ("# uv ".data ++ uvv.data)).isSome = true ∧
    isSubLine ("# uv ".data ++ uvv.data) = false ∧
    isDepLine ("# uv ".data ++ uvv.data) = false ∧
    (∀ l ∈ pins.map pinLineC, isSubLine l = true ∧ isDepLine l = false) ∧
    (∀ l ∈ (pyLines deps.data).map pyStrip ++
      (pyLines env.nodepsFile.data).map pyStrip, isSubLine l = false) ∧
    frag.data.getLast? = some '\n' ∧
    frag.data.dropLast.getLast? ≠ some '\n' := by
  have hlit13 : ("# submodules/".data : List Char) = '#' :: ' ' :: "submodules/".data := by
    decide
  have hfrag : frag = mkFragment uvv pins deps env.nodepsFile := by
    unfold compileF at hok
    rw [hdeps, hpins, hprobe] at hok
    exact (Except.ok.inj hok).symm
  have hnoNl : ∀ l ∈ fragmentLines uvv pins deps env.nodepsFile, '\n' ∉ l := by
    intro l hl
    unfold fragmentLines at hl
    rcases List.mem_cons.mp hl with rfl | hl
    · intro hm
      rcases List.mem_append.mp hm with h | h
      · exact absurd h (by decide)
      · exact huv2 h
    rcases List.mem_append.mp hl with hl | hl
    · obtain ⟨pr, hpr, rfl⟩ := List.mem_map.mp hl
      obtain ⟨⟨nm, hnm, _, hnmws⟩, _, hrevws⟩ := hpin pr hpr
      intro hm
      unfold pinLineC at hm
      rcases List.mem_cons.mp hm with h | hm2
      · exact absurd h (by decide)
      rcases List.mem_cons.mp hm2 with h | hm3
      · exact absurd h (by decide)
      rcases List.mem_append.mp hm3 with h | h
      · rw [hnm] at h
        rcases List.mem_append.mp h with h2 | h2
        · exact absurd h2 (by decide)
        · exact absurd (hnmws '\n' h2) (by decide)
      · rcases List.mem_cons.mp h with h2 | h2
        · exact absurd h2 (by decide)
        · exact absurd (hrevws '\n' h2) (by decide)
    · have hgen : ∀ (src : String), l ∈ (pyLines src.data).map pyStrip → '\n' ∉ l := by
        intro src hsrc hm
        obtain ⟨l0, hl0, rfl⟩ := List.mem_map.mp hsrc
        have h1 := pyStrip_subset l0 '\n' hm
        have h2 := pyLines_subset src.data l0 hl0
        exact mem_splitOnChar_not_mem '\n' src.data l0 h2 h1
      rcases List.mem_append.mp hl with hb | hb
      · exact hgen deps hb
      · exact hgen env.nodepsFile hb
  have hsegs : splitNl frag.data =
      fragmentLines uvv pins deps env.nodepsFile ++ [[]] := by
    rw [hfrag, mkFragment_data]
    exact splitNl_joinNl _ hnoNl (by unfold fragmentLines; exact List.cons_ne_nil _ _)
  have huvhd : uvIntra ("# uv ".data ++ uvv.data) = some uvv.data :=
    uvIntra_header uvv huv1
  have hsubhd : isSubLine ("# uv ".data ++ uvv.data) = false := by
    have hshape : ("# uv ".data ++ uvv.data : List Char) =
        '#' :: ' ' :: 'u' :: 'v' :: ' ' :: uvv.data := rfl
    unfold isSubLine subIntra
    rw [hshape, hlit13]
    simp [stripPref]
  have hdephd : isDepLine ("# uv ".data ++ uvv.data) = false := by
    have hshape : ("# uv ".data ++ uvv.data : List Char) =
        '#' :: ' ' :: 'u' :: 'v' :: ' ' :: uvv.data := rfl
    unfold isDepLine
    rw [hshape, depName_hash]
    rfl
  have hpinlines : ∀ l ∈ pins.map pinLineC, isSubLine l = true ∧ isDepLine l = false := by
    intro l hl
    obtain ⟨pr, hpr, rfl⟩ := List.mem_map.mp hl
    obtain ⟨⟨nm, hnm, hnmne, hnmws⟩, hrevne, hrevws⟩ := hpin pr hpr
    constructor
    · have hshape : pinLineC pr = "# submodules/".data ++ (nm ++ ' ' :: pr.2.data) := by
        unfold pinLineC
        rw [hnm, hlit13]
        simp
      unfold isSubLine subIntra
      rw [hshape, stripPref_append]
      have hall : ∀ x ∈ nm, (fun c => !c.isWhitespace) x = true := by
        intro x hx
        simp [hnmws x hx]
      have htw : (nm ++ ' ' :: pr.2.data).takeWhile (fun c => !c.isWhitespace) = nm :=
        takeWhile_append_stop nm ' ' pr.2.data hall (by decide)
      have hnme : nm.isEmpty = false := by
        cases nm with
        | nil => exact absurd rfl hnmne
        | cons _ _ => rfl
      have hreve : pr.2.data.isEmpty = false := by
        cases hx : pr.2.data with
        | nil => exact absurd hx hrevne
        | cons _ _ => rfl
      have hrevall : pr.2.data.all (fun c => !c.isWhitespace) = true := by
        rw [List.all_eq_true]
        intro c hc
        simp [hrevws c hc]
      simp only [htw, List.drop_left]
      simp [hnme, hreve, hrevall]
    · unfold pinLineC isDepLine
      rw [depName_hash]
      rfl
  have hbodysub : ∀ l ∈ (pyLines deps.data).map pyStrip ++
      (pyLines env.nodepsFile.data).map pyStrip, isSubLine l = false := by
    intro l hl
    unfold isSubLine subIntra
    rw [hbody l hl]
    rfl
  have hdata : frag.data = joinNlC (fragmentLines uvv pins deps env.nodepsFile)
      ++ ['\n'] := by
    rw [hfrag, mkFragment_data]
  have hlastch : frag.data.getLast? = some '\n' := by
    rw [hdata]
    exact List.getLast?_concat _
  have hdrop : frag.data.dropLast.getLast? ≠ some '\n' := by
    rw [hdata, List.dropLast_concat]
    obtain ⟨last, hlEq⟩ := Option.isSome_iff_exists.mp
      (List.getLast?_isSome.mpr
        (show fragmentLines uvv pins deps env.nodepsFile ≠ [] by
          unfold fragmentLines
          exact List.cons_ne_nil _ _))
    have hlastne : last ≠ [] := by
      intro hz
      rw [hz] at hlEq
      exact hlast hlEq
    rw [joinNlC_getLast _ last hlEq hlastne]
    have hmem := mem_of_getLast?_eq _ _ hlEq
    intro hc
    have hcm := mem_of_getLast?_eq last '\n' hc
    exact hnoNl last hmem hcm
  exact ⟨hfrag, hsegs, rfl, by rw [huvhd]; rfl, hsubhd, hdephd, hpinlines, hbodysub,
    hlastch, hdrop⟩

/-- Witness for C8: the fragment compiled by the concrete submodule
environment has the header first, its sole pin line second, and exactly one
trailing newline. -/
theorem c8_fragment_format_witness :
    splitNl dirSub.data =
      fragmentLines "1.0" [("submodules/s1", "aaa")] "foo==1.0" "" ++ [[]] ∧
    dirSub.data.getLast? = some '\n' ∧
    dirSub.data.dropLast.getLast? ≠ some '\n' := by
  have h := c8_fragment_format envSub "linux" "3.11" false false dirSub "1.0"
    "foo==1.0" [("submodules/s1", "aaa")]
    (by decide) (by decide) (by decide) (by decide) (by decide) (by decide)
    ?_ (by decide) (by decide)
  · obtain ⟨_, h2, _, _, _, _, _, _, h9, h10⟩ := h
    exact ⟨h2, h9, h10⟩
  · intro pr hpr
    have hpr' : pr = ("submodules/s1", "aaa") := List.mem_singleton.mp hpr
    subst hpr'
    exact ⟨⟨"s1".data, by decide, by decide, by decide⟩, by decide, by decide⟩

end PyxSync
